import Mathlib

/-!
Verification of the genagent orchestration core against its specification.

The development shallowly embeds the pieces of the source that the verified
properties are about:

* the message record and the hook pipeline (`context.ts`: `applyMessageHooks`),
* the static task-list state machine (`task-list.ts`: `defTaskList`,
  the `finishTask` tool executor and the history-replacing hook),
* the prompt builder (`context.ts`: `def`, `$`),
* the tool registry (`context.ts`: `defTool`),
* the schema-validated generation/retry engine
  (`agent-executor.ts` / `index.ts`: the `maxValidationRetries` loop and the
  JSON parse/extract pipeline),
* the dynamic task-list state machine (`dynamic-task-list.ts`).

Machine integers are modelled as `Nat` (no arithmetic in the source comes near
overflow), JavaScript exceptions as `Option`/`Except`, and the mutable closure
state of each component as an explicit state record that the operations map to
a new state plus the returned text.
-/

namespace Genagent

/-- A conversation message as used by the orchestration core: a speaker name
(`"system"`, `"user"` or assistant) and text content.  This is the
`MessageContent` interface of `types.ts`.  The UI-facing generation of the
code additionally attaches a fresh `id`/`timestamp` via `createMessage`; those
fields never reach the provider call (`buildConversationMessages` keeps only
role and content), so the embedding models the `(name, content)` payload. -/
structure MessageContent where
  name : String
  content : String
deriving DecidableEq, Repr

/-- `createMessage` of `types.ts`, restricted to the `(name, content)` payload
(see the comment on `MessageContent`). -/
def createMessage (name content : String) : MessageContent :=
  ⟨name, content⟩

/-- A message-history hook: receives the current history and returns either a
replacement history (`some`) or `undefined`/`void` (`none`), meaning
"no change".  This is the `MessageHistoryHook` type of `types.ts`. -/
def MessageHook : Type := List MessageContent → Option (List MessageContent)

/-- `applyMessageHooks` of `context.ts`: folds the registered hooks
left-to-right over the message history; a hook returning `undefined` (`none`)
leaves the accumulated history unchanged. -/
def applyMessageHooks (messages : List MessageContent) (hooks : List MessageHook) :
    List MessageContent :=
  hooks.foldl
    (fun currentMessages hook =>
      match hook currentMessages with
      | some result => result
      | none => currentMessages)
    messages

/-! ### Static task list (`task-list.ts`) -/

/-- A static task: prompt text plus a validation function returning feedback
text when validation fails and `undefined` (`none`) when it passes. -/
structure Task where
  task : String
  validation : String → Option String

/-- An entry of `completedTasks`: the finished task's text and its result. -/
structure CompletedTask where
  task : String
  result : String
deriving DecidableEq, Repr

/-- The closure state of `defTaskList`: the fixed task array, the index
cursor, the completed-task log and the pending validation feedback. -/
structure TaskListState where
  tasks : List Task
  currentTaskIndex : Nat
  completedTasks : List CompletedTask
  validationFeedback : Option String

/-- The state installed by `defTaskList` before any tool call. -/
def initTaskListState (tasks : List Task) : TaskListState :=
  { tasks := tasks
    currentTaskIndex := 0
    completedTasks := []
    validationFeedback := none }

/-- The failure-style tool result returned by `finishTask` when validation
returns feedback. -/
def validationFailedMsg (feedback : String) : String :=
  "Validation failed: " ++ feedback ++
    "\n\nPlease review the task and provide a corrected result."

/-- The success message returned by `finishTask` when more tasks remain. -/
def nextTaskMsg (nextTaskText : String) : String :=
  "✓ Task completed successfully!\n\nNext task: " ++ nextTaskText

/-- The completion message returned by `finishTask` when the cursor reaches
the end of the task array. -/
def allTasksDoneMsg : String :=
  "✓ All tasks completed successfully! The task list is complete."

/-- The `finishTask` tool executor of `defTaskList`.  `none` models the
JavaScript `TypeError` thrown when `state.tasks[state.currentTaskIndex]` is
`undefined` (cursor out of range) and `.validation` is accessed on it; the
throw happens before any state write, so no successor state exists in that
case.  Otherwise the executor returns the updated closure state together with
the textual tool result. -/
def finishTask (s : TaskListState) (result : String) :
    Option (TaskListState × String) :=
  match s.tasks[s.currentTaskIndex]? with
  | none => none
  | some currentTask =>
    match currentTask.validation result with
    | some feedback =>
        some ({ s with validationFeedback := some feedback },
              validationFailedMsg feedback)
    | none =>
        let s2 : TaskListState :=
          { s with
            completedTasks := s.completedTasks ++ [⟨currentTask.task, result⟩]
            validationFeedback := none
            currentTaskIndex := s.currentTaskIndex + 1 }
        match s2.tasks[s2.currentTaskIndex]? with
        | some nextTask => some (s2, nextTaskMsg nextTask.task)
        | none => some (s2, allTasksDoneMsg)

/-- Applies a sequence of `finishTask` calls; a call that throws (terminal
cursor) leaves the state unchanged, as the executor throws before writing. -/
def runFinishTasks (s : TaskListState) : List String → TaskListState
  | [] => s
  | r :: rs =>
    match finishTask s r with
    | none => runFinishTasks s rs
    | some (s2, _) => runFinishTasks s2 rs

/-- The list of states visited by a sequence of `finishTask` calls,
starting state included. -/
def taskListTrace (s : TaskListState) : List String → List TaskListState
  | [] => [s]
  | r :: rs =>
    match finishTask s r with
    | none => s :: taskListTrace s rs
    | some (s2, _) => s :: taskListTrace s2 rs

/-- The operating-instructions system message pushed first by the
`defTaskList` hook. -/
def taskListInstructionsText : String :=
  "You are working through a task list. Each task must be completed in order.\n" ++
  "Use the finishTask tool to submit your result for the current task.\n" ++
  "If validation fails, you will receive feedback to correct your result.\n" ++
  "Focus only on the current task, but be aware of upcoming tasks.\n" ++
  "Previous tasks are summarized below for context."

/-- One line of the completed-tasks summary (`Task i: <task>\nResult: <result>`). -/
def completedTaskLine (i : Nat) (ct : CompletedTask) : String :=
  "Task " ++ toString (i + 1) ++ ": " ++ ct.task ++ "\nResult: " ++ ct.result

/-- The completed-tasks summary system message content. -/
def completedSummaryText (s : TaskListState) : String :=
  "Completed tasks (" ++ toString s.completedTasks.length ++ "/" ++
    toString s.tasks.length ++ "):\n\n" ++
  String.intercalate "\n\n"
    (s.completedTasks.enum.map fun p => completedTaskLine p.1 p.2)

/-- The upcoming-tasks system message content (tasks after the current one). -/
def upcomingText (s : TaskListState) : String :=
  "Upcoming tasks:\n" ++
  String.intercalate "\n"
    (((s.tasks.drop (s.currentTaskIndex + 1)).enum).map fun p =>
      toString (p.1 + s.currentTaskIndex + 2) ++ ". " ++ p.2.task)

/-- The user message naming the current task (`[Task i/N] <task text>`). -/
def currentTaskText (s : TaskListState) (currentTask : Task) : String :=
  "[Task " ++ toString (s.currentTaskIndex + 1) ++ "/" ++
    toString s.tasks.length ++ "] " ++ currentTask.task

/-- The message list rebuilt from scratch by the hook registered by
`defTaskList` (`ctx.defHook` callback in `task-list.ts`). -/
def taskListHookMessages (s : TaskListState) : List MessageContent :=
  [createMessage "system" taskListInstructionsText]
  ++ (if s.completedTasks.length > 0
      then [createMessage "system" (completedSummaryText s)] else [])
  ++ (if s.currentTaskIndex < s.tasks.length - 1
      then [createMessage "system" (upcomingText s)] else [])
  ++ (match s.tasks[s.currentTaskIndex]? with
      | some currentTask =>
        createMessage "user" (currentTaskText s currentTask) ::
          (match s.validationFeedback with
           | some fb =>
             [createMessage "system" ("Previous attempt feedback: " ++ fb)]
           | none => [])
      | none => [])

/-- The hook registered by `defTaskList`: ignores the incoming history and
returns the history rebuilt from the task-list state. -/
def taskListHook (s : TaskListState) : MessageHook :=
  fun _ => some (taskListHookMessages s)

/-! ### Theorems about the static task list -/

/-- Step shape of a non-throwing `finishTask` call: either nothing but the
feedback changed, or the cursor advanced by one and one completed entry was
appended. -/
lemma finishTask_step {s s2 : TaskListState} {r msg : String}
    (h : finishTask s r = some (s2, msg)) :
    (s2.currentTaskIndex = s.currentTaskIndex ∧
      s2.completedTasks = s.completedTasks) ∨
    (s2.currentTaskIndex = s.currentTaskIndex + 1 ∧
      s2.completedTasks.length = s.completedTasks.length + 1) := by
  unfold finishTask at h
  split at h
  · cases h
  · split at h
    · simp only [Option.some.injEq, Prod.mk.injEq] at h
      left
      rw [← h.1]
      exact ⟨rfl, rfl⟩
    · dsimp only at h
      split at h
      · simp only [Option.some.injEq, Prod.mk.injEq] at h
        right
        rw [← h.1]
        simp
      · simp only [Option.some.injEq, Prod.mk.injEq] at h
        right
        rw [← h.1]
        simp

/-- The state trace of a call sequence always starts with the initial state. -/
lemma taskListTrace_head (s : TaskListState) (rs : List String) :
    (taskListTrace s rs).head? = some s := by
  cases rs with
  | nil => rfl
  | cons r rs =>
    cases h : finishTask s r with
    | none => simp [taskListTrace, h]
    | some p => cases p with | mk s2 m => simp [taskListTrace, h]

/-- Cursor monotonicity and the cursor/completed-length invariant along any
trace starting from a state satisfying the invariant. -/
lemma taskListTrace_ok (rs : List String) : ∀ (s : TaskListState),
    s.currentTaskIndex = s.completedTasks.length →
    List.Chain' (fun a b => a.currentTaskIndex ≤ b.currentTaskIndex)
      (taskListTrace s rs) ∧
    ∀ st ∈ taskListTrace s rs,
      st.currentTaskIndex = st.completedTasks.length := by
  induction rs with
  | nil =>
    intro s hs
    refine ⟨by simp [taskListTrace], ?_⟩
    intro st hst
    simp [taskListTrace] at hst
    rw [hst]
    exact hs
  | cons r rs ih =>
    intro s hs
    cases h : finishTask s r with
    | none =>
      have hrec := ih s hs
      constructor
      · rw [taskListTrace, h]
        refine List.chain'_cons'.mpr ⟨?_, hrec.1⟩
        intro b hb
        rw [taskListTrace_head s rs] at hb
        cases hb
        exact le_refl _
      · intro st hst
        rw [taskListTrace, h] at hst
        rcases List.mem_cons.mp hst with h1 | h2
        · rw [h1]; exact hs
        · exact hrec.2 st h2
    | some p =>
      cases p with
      | mk s2 m =>
        have hstep := finishTask_step h
        have hinv2 : s2.currentTaskIndex = s2.completedTasks.length := by
          rcases hstep with ⟨h1, h2⟩ | ⟨h1, h2⟩
          · rw [h1, h2]; exact hs
          · rw [h1, h2, hs]
        have hrec := ih s2 hinv2
        constructor
        · rw [taskListTrace, h]
          refine List.chain'_cons'.mpr ⟨?_, hrec.1⟩
          intro b hb
          rw [taskListTrace_head s2 rs] at hb
          cases hb
          rcases hstep with ⟨h1, _⟩ | ⟨h1, _⟩
          · rw [h1]
          · rw [h1]; exact Nat.le_succ _
        · intro st hst
          rw [taskListTrace, h] at hst
          rcases List.mem_cons.mp hst with h1 | h2
          · rw [h1]; exact hs
          · exact hrec.2 st h2

/-- C1: for a `finishTask` call on a non-terminal state, a failing validation
stores the feedback as the pending feedback, returns a failure-style tool
result containing it and changes nothing else (the run is not aborted); a
passing validation appends `{task, result}` to `completedTasks`, clears the
feedback, advances the cursor by exactly one, and returns a success message
naming the next task, or the completion message when the cursor reaches the
number of tasks. -/
theorem finishTask_spec (s : TaskListState) (r : String) (cur : Task)
    (hcur : s.tasks[s.currentTaskIndex]? = some cur) :
    (∀ fb, cur.validation r = some fb →
      ∃ s2, finishTask s r = some (s2, validationFailedMsg fb) ∧
        s2.validationFeedback = some fb ∧
        s2.currentTaskIndex = s.currentTaskIndex ∧
        s2.completedTasks = s.completedTasks) ∧
    (cur.validation r = none →
      ∃ s2 msg, finishTask s r = some (s2, msg) ∧
        s2.completedTasks = s.completedTasks ++ [⟨cur.task, r⟩] ∧
        s2.validationFeedback = none ∧
        s2.currentTaskIndex = s.currentTaskIndex + 1 ∧
        (∀ nxt, s.tasks[s.currentTaskIndex + 1]? = some nxt →
          msg = nextTaskMsg nxt.task) ∧
        (s.currentTaskIndex + 1 = s.tasks.length → msg = allTasksDoneMsg)) := by
  constructor
  · intro fb hfb
    refine ⟨{ s with validationFeedback := some fb }, ?_, rfl, rfl, rfl⟩
    simp [finishTask, hcur, hfb]
  · intro hok
    cases hnx : s.tasks[s.currentTaskIndex + 1]? with
    | some nxt =>
      refine ⟨{ s with
                  completedTasks := s.completedTasks ++ [⟨cur.task, r⟩]
                  validationFeedback := none
                  currentTaskIndex := s.currentTaskIndex + 1 },
              nextTaskMsg nxt.task, ?_, rfl, rfl, rfl, ?_, ?_⟩
      · simp [finishTask, hcur, hok, hnx]
      · intro n hn
        cases hn
        rfl
      · intro hlen
        exfalso
        have : s.tasks[s.currentTaskIndex + 1]? = none := by
          apply List.getElem?_eq_none
          rw [hlen]
        rw [this] at hnx
        cases hnx
    | none =>
      refine ⟨{ s with
                  completedTasks := s.completedTasks ++ [⟨cur.task, r⟩]
                  validationFeedback := none
                  currentTaskIndex := s.currentTaskIndex + 1 },
              allTasksDoneMsg, ?_, rfl, rfl, rfl, ?_, ?_⟩
      · simp [finishTask, hcur, hok, hnx]
      · intro n hn
        cases hn
      · intro _
        rfl

/-- Concrete instance of `finishTask_spec`: a one-task list whose validation
always fails, called with an arbitrary result. -/
def exFailTask : Task := ⟨"always fails", fun _ => some "Incorrect"⟩

/-- Initial state for the `finishTask_spec` witness. -/
def exFailState : TaskListState := initTaskListState [exFailTask]

/-- Witness for C1 at a concrete state and result. -/
theorem finishTask_spec_witness :
    ∃ s2, finishTask exFailState "x" = some (s2, validationFailedMsg "Incorrect") ∧
      s2.validationFeedback = some "Incorrect" ∧
      s2.currentTaskIndex = exFailState.currentTaskIndex ∧
      s2.completedTasks = exFailState.completedTasks :=
  (finishTask_spec exFailState "x" exFailTask rfl).1 "Incorrect" rfl

/-- C2: along every sequence of `finishTask` calls starting from the state
installed by `defTaskList`, the cursor never decreases and after every call
it equals the number of completed tasks. -/
theorem taskList_monotone (tasks : List Task) (rs : List String) :
    List.Chain' (fun a b => a.currentTaskIndex ≤ b.currentTaskIndex)
      (taskListTrace (initTaskListState tasks) rs) ∧
    ∀ st ∈ taskListTrace (initTaskListState tasks) rs,
      st.currentTaskIndex = st.completedTasks.length :=
  taskListTrace_ok rs (initTaskListState tasks) rfl

/-- Witness for C2 at a concrete task list and call sequence. -/
theorem taskList_monotone_witness :
    (initTaskListState [exFailTask]).currentTaskIndex =
      (initTaskListState [exFailTask]).completedTasks.length :=
  (taskList_monotone [exFailTask] []).2 (initTaskListState [exFailTask])
    (by simp [taskListTrace])

/-- C10: once the cursor has reached the number of tasks, a further
`finishTask` call throws (reading `tasks[cursor]`, which is `undefined`)
instead of returning a textual tool result, and the task-list state is
unchanged by such a call. -/
theorem finishTask_terminal (s : TaskListState) (r : String)
    (h : s.currentTaskIndex = s.tasks.length) :
    finishTask s r = none ∧ runFinishTasks s [r] = s := by
  have hnone : s.tasks[s.currentTaskIndex]? = none := by
    apply List.getElem?_eq_none
    rw [h]
  refine ⟨by simp [finishTask, hnone], ?_⟩
  simp [runFinishTasks, finishTask, hnone]

/-- Terminal state used by the `finishTask_terminal` witness. -/
def exTerminalState : TaskListState :=
  { tasks := [exFailTask]
    currentTaskIndex := 1
    completedTasks := [⟨"always fails", "r"⟩]
    validationFeedback := none }

/-- Witness for C10 at a concrete terminal state. -/
theorem finishTask_terminal_witness :
    finishTask exTerminalState "x" = none ∧
      runFinishTasks exTerminalState ["x"] = exTerminalState :=
  finishTask_terminal exTerminalState "x" rfl

/-- C9: the hook pipeline of a `defTaskList` run (its single registered hook,
over a fixed underlying task-list state) is idempotent: applying it twice in
succession yields the same message sequence as applying it once, because the
hook rebuilds the history from the internal state alone. -/
theorem hookPipeline_idempotent (s : TaskListState) (msgs : List MessageContent) :
    applyMessageHooks (applyMessageHooks msgs [taskListHook s]) [taskListHook s] =
      applyMessageHooks msgs [taskListHook s] := by
  simp [applyMessageHooks, taskListHook]

/-! ### Variable/message builder (`context.ts`: `def` and `$`) -/

/-- The positional interpolation performed by the reduce inside `$`: each
template part is followed by the value at the same index, or by nothing when
no value exists at that index. -/
def interpolate : List String → List String → String
  | [], _ => ""
  | p :: ps, [] => p ++ interpolate ps []
  | p :: ps, v :: vs => p ++ v ++ interpolate ps vs

/-- `variables.set` of the builder, with JavaScript `Map.set` semantics: an
existing key keeps its position and receives the new content; a new key is
appended at the end (insertion order). -/
def setVar : List (String × String) → String → String → List (String × String)
  | [], name, content => [(name, content)]
  | kv :: rest, name, content =>
      if kv.1 = name then (name, content) :: rest
      else kv :: setVar rest name content

/-- The variable map built by a sequence of `def(name, content)` calls. -/
def varsOfDefs (defs : List (String × String)) : List (String × String) :=
  defs.foldl (fun vars d => setVar vars d.1 d.2) []

/-- One line of the variable block: `NAME: text`. -/
def varLine (kv : String × String) : String := kv.1 ++ ": " ++ kv.2

/-- `$` of `context.ts`: interpolates the parts positionally, then — when any
variables are defined — prepends the variable block (entries joined by blank
lines) before the literal template text. -/
def renderPrompt (vars : List (String × String)) (parts values : List String) :
    String :=
  let result := interpolate parts values
  if vars.isEmpty then result
  else String.intercalate "\n\n" (vars.map varLine) ++ "\n\n" ++ result

/-- Setting a fresh name appends it at the end of the variable map. -/
lemma setVar_not_mem (vars : List (String × String)) (n c : String)
    (h : n ∉ vars.map Prod.fst) : setVar vars n c = vars ++ [(n, c)] := by
  induction vars with
  | nil => rfl
  | cons kv rest ih =>
    simp only [List.map_cons, List.mem_cons] at h
    push_neg at h
    rw [setVar, if_neg (fun hk => h.1 hk.symm), ih h.2]
    rfl

/-- Folding `setVar` over definitions with pairwise-distinct names appends
them in order onto the accumulator. -/
lemma foldl_setVar (defs : List (String × String)) :
    ∀ vs : List (String × String),
    (∀ n ∈ defs.map Prod.fst, n ∉ vs.map Prod.fst) →
    (defs.map Prod.fst).Nodup →
    List.foldl (fun vars d => setVar vars d.1 d.2) vs defs = vs ++ defs := by
  induction defs with
  | nil => intro vs _ _; simp
  | cons d ds ih =>
    intro vs hdisj hnodup
    simp only [List.foldl_cons]
    rw [setVar_not_mem vs d.1 d.2 (hdisj d.1 (by simp))]
    rw [ih (vs ++ [(d.1, d.2)]) ?_ ?_]
    · simp
    · intro n hn
      simp only [List.map_append, List.mem_append, List.map_cons]
      push_neg
      constructor
      · exact hdisj n (by simp [hn])
      · simp only [List.map_cons, List.nodup_cons] at hnodup
        intro hmem
        simp only [List.map_cons, List.map_nil, List.mem_singleton] at hmem
        exact hnodup.1 (hmem ▸ hn)
    · simp only [List.map_cons, List.nodup_cons] at hnodup
      exact hnodup.2

/-- C8: for every template and every sequence of variable definitions with
distinct names, `$` renders the interpolation of the supplied values into the
template parts (positionally), prefixed — whenever at least one variable is
defined — by a block rendering each defined variable as `NAME: text` in
insertion order, before the literal template text. -/
theorem renderPrompt_spec (defs : List (String × String))
    (parts values : List String)
    (hnodup : (defs.map Prod.fst).Nodup) :
    varsOfDefs defs = defs ∧
    (defs ≠ [] →
      renderPrompt (varsOfDefs defs) parts values =
        String.intercalate "\n\n" (defs.map varLine) ++ "\n\n" ++
          interpolate parts values) ∧
    (defs = [] →
      renderPrompt (varsOfDefs defs) parts values = interpolate parts values) ∧
    (∀ p ps v vs, interpolate (p :: ps) (v :: vs) = p ++ v ++ interpolate ps vs) := by
  have hvars : varsOfDefs defs = defs := by
    have := foldl_setVar defs [] (by simp) hnodup
    simpa [varsOfDefs] using this
  refine ⟨hvars, ?_, ?_, fun p ps v vs => rfl⟩
  · intro hne
    rw [renderPrompt, hvars]
    have : defs.isEmpty = false := by
      cases defs with
      | nil => exact absurd rfl hne
      | cons d ds => rfl
    rw [this]
    simp
  · intro he
    rw [renderPrompt, hvars, he]
    rfl

/-- Witness for C8 at a concrete template and variable set. -/
theorem renderPrompt_spec_witness :
    renderPrompt (varsOfDefs [("A", "alpha"), ("B", "beta")])
        ["give ", " now"] ["X"] =
      String.intercalate "\n\n" ([("A", "alpha"), ("B", "beta")].map varLine) ++
        "\n\n" ++ interpolate ["give ", " now"] ["X"] :=
  (renderPrompt_spec [("A", "alpha"), ("B", "beta")] ["give ", " now"] ["X"]
      (by decide)).2.1 (by decide)

/-! ### Tool registry (`context.ts`: `defTool`) -/

/-- A tool registration as kept in the run's tool list.  The source record
also carries the parameter schema and the executor; neither participates in
registration bookkeeping, which is what is at stake here. -/
structure ToolDefinition where
  name : String
  description : String
deriving DecidableEq, Repr

/-- `defTool` of `context.ts`: pushes the definition onto the run's tool
list.  No collision check of any kind is performed. -/
def defTool (tools : List ToolDefinition) (t : ToolDefinition) :
    List ToolDefinition :=
  tools ++ [t]

/-- C7 counterexample: registering a second tool under an already-registered
name does not fail — both definitions are kept in the registry. -/
theorem defTool_duplicate_counterexample :
    defTool (defTool [] ⟨"dup", "first"⟩) ⟨"dup", "second"⟩ =
      [⟨"dup", "first"⟩, ⟨"dup", "second"⟩] ∧
    (⟨"dup", "first"⟩ : ToolDefinition).name =
      (⟨"dup", "second"⟩ : ToolDefinition).name :=
  ⟨rfl, rfl⟩

/-- C7 (amended): registering a tool never fails; the new definition is
appended to the run's tool list even when its name equals the name of an
existing registration, and every prior registration is kept. -/
theorem defTool_no_collision_check (tools : List ToolDefinition)
    (t : ToolDefinition) :
    t ∈ defTool tools t ∧
    (∀ u ∈ tools, u ∈ defTool tools t) ∧
    (defTool tools t).length = tools.length + 1 := by
  refine ⟨by simp [defTool], ?_, by simp [defTool]⟩
  intro u hu
  simp [defTool, hu]

/-- Witness for the amended C7 at a concrete registry. -/
theorem defTool_no_collision_check_witness :
    (⟨"dup", "first"⟩ : ToolDefinition) ∈
      defTool (defTool [] ⟨"dup", "first"⟩) ⟨"dup", "second"⟩ :=
  (defTool_no_collision_check (defTool [] ⟨"dup", "first"⟩)
      ⟨"dup", "second"⟩).2.1 ⟨"dup", "first"⟩ (by simp [defTool])

/-! ### JSON values and a model of `JSON.parse`

The generation engine calls the JavaScript builtin `JSON.parse`.  The model
below implements the JSON grammar on the fragment relevant here (objects,
arrays, strings with the common escapes, integer numbers, booleans, null);
floating-point numbers and `\u` escapes are outside the scope of the claims
and are rejected by the model. -/

/-- The `{` character, written via its code point. -/
def braceOpen : Char := Char.ofNat 123

/-- The `}` character, written via its code point. -/
def braceClose : Char := Char.ofNat 125

/-- A parsed JSON value. -/
inductive Json where
  | null
  | bool (b : Bool)
  | num (n : Int)
  | str (s : String)
  | arr (elems : List Json)
  | obj (fields : List (String × Json))

/-- JSON insignificant whitespace. -/
def isWsChar (c : Char) : Bool :=
  c == ' ' || c == '\n' || c == '\t' || c == '\r'

/-- Drops leading JSON whitespace. -/
def skipWs (cs : List Char) : List Char := cs.dropWhile isWsChar

/-- Parses the body of a JSON string after the opening quote, handling the
common escapes; returns the content and the remainder after the closing
quote. -/
def parseStringBody : List Char → Option (List Char × List Char)
  | [] => none
  | c :: rest =>
    if c == '"' then some ([], rest)
    else if c == '\\' then
      match rest with
      | [] => none
      | e :: rest2 =>
        let decoded : Option Char :=
          if e == '"' then some '"'
          else if e == '\\' then some '\\'
          else if e == '/' then some '/'
          else if e == 'n' then some '\n'
          else if e == 't' then some '\t'
          else if e == 'r' then some '\r'
          else if e == 'b' then some (Char.ofNat 8)
          else if e == 'f' then some (Char.ofNat 12)
          else none
        match decoded with
        | none => none
        | some d =>
          match parseStringBody rest2 with
          | none => none
          | some (content, rest3) => some (d :: content, rest3)
    else
      match parseStringBody rest with
      | none => none
      | some (content, rest2) => some (c :: content, rest2)

/-- Numeric value of a decimal digit character. -/
def digitVal (c : Char) : Nat := c.toNat - 48

/-- Consumes a run of decimal digits, accumulating their value. -/
def parseDigits : List Char → Nat → Nat × List Char
  | [], acc => (acc, [])
  | c :: rest, acc =>
    if c.isDigit then parseDigits rest (acc * 10 + digitVal c)
    else (acc, c :: rest)

mutual

/-- Recursive-descent JSON value parser (fuel-indexed). -/
def parseVal : Nat → List Char → Option (Json × List Char)
  | 0, _ => none
  | fuel + 1, cs =>
    match skipWs cs with
    | [] => none
    | 'n' :: 'u' :: 'l' :: 'l' :: rest => some (.null, rest)
    | 't' :: 'r' :: 'u' :: 'e' :: rest => some (.bool true, rest)
    | 'f' :: 'a' :: 'l' :: 's' :: 'e' :: rest => some (.bool false, rest)
    | '"' :: rest =>
      match parseStringBody rest with
      | some (content, rest2) => some (.str (String.mk content), rest2)
      | none => none
    | '[' :: rest =>
      match skipWs rest with
      | ']' :: rest2 => some (.arr [], rest2)
      | _ =>
        match parseElems fuel (skipWs rest) with
        | some (elems, rest2) => some (.arr elems, rest2)
        | none => none
    | '-' :: rest =>
      match rest with
      | c :: _ =>
        if c.isDigit then
          let digits := parseDigits rest 0
          some (.num (-(digits.1 : Int)), digits.2)
        else none
      | [] => none
    | c :: rest =>
      if c == braceOpen then
        match skipWs rest with
        | c2 :: rest2 =>
          if c2 == braceClose then some (.obj [], rest2)
          else
            match parseFields fuel (c2 :: rest2) with
            | some (fields, rest3) => some (.obj fields, rest3)
            | none => none
        | [] => none
      else if c.isDigit then
        let digits := parseDigits (c :: rest) 0
        some (.num (digits.1 : Int), digits.2)
      else none

/-- Parses the comma-separated elements of a non-empty JSON array, up to and
including the closing bracket. -/
def parseElems : Nat → List Char → Option (List Json × List Char)
  | 0, _ => none
  | fuel + 1, cs =>
    match parseVal fuel cs with
    | none => none
    | some (v, rest) =>
      match skipWs rest with
      | ',' :: rest2 =>
        match parseElems fuel rest2 with
        | some (vs, rest3) => some (v :: vs, rest3)
        | none => none
      | ']' :: rest2 => some ([v], rest2)
      | _ => none

/-- Parses the members of a non-empty JSON object, up to and including the
closing brace. -/
def parseFields : Nat → List Char → Option (List (String × Json) × List Char)
  | 0, _ => none
  | fuel + 1, cs =>
    match skipWs cs with
    | '"' :: rest =>
      match parseStringBody rest with
      | none => none
      | some (keyChars, rest2) =>
        match skipWs rest2 with
        | ':' :: rest3 =>
          match parseVal fuel rest3 with
          | none => none
          | some (v, rest4) =>
            match skipWs rest4 with
            | ',' :: rest5 =>
              match parseFields fuel rest5 with
              | some (fields, rest6) =>
                some ((String.mk keyChars, v) :: fields, rest6)
              | none => none
            | c :: rest5 =>
              if c == braceClose then some ([(String.mk keyChars, v)], rest5)
              else none
            | [] => none
        | _ => none
    | _ => none

end

/-- The model of `JSON.parse`: parses one value and requires only whitespace
to remain. -/
def jsonParse (s : String) : Option Json :=
  match parseVal (2 * s.length + 2) s.data with
  | some (v, rest) => if (skipWs rest).isEmpty then some v else none
  | none => none

/-- Index of the first `{` of the text, if any. -/
def firstBraceIdx (s : String) : Option Nat :=
  s.data.findIdx? (fun c => c == braceOpen)

/-- Index of the last `}` of the text, if any. -/
def lastCloseIdx (s : String) : Option Nat :=
  match s.data.reverse.findIdx? (fun c => c == braceClose) with
  | some k => some (s.data.length - 1 - k)
  | none => none

/-- The extraction performed by `finalText.match(/\{[\s\S]*\}/)`: the greedy
match runs from the first `{` of the text to the last `}` (when the latter
comes after the former). -/
def extractJsonSlice (s : String) : Option String :=
  match firstBraceIdx s, lastCloseIdx s with
  | some i, some j =>
    if i < j then some (String.mk ((s.data.drop i).take (j - i + 1)))
    else none
  | _, _ => none

/-- Stand-in for the engine-specific `SyntaxError` message thrown by
`JSON.parse` on the extracted slice (its exact text comes from the JavaScript
runtime, not from this repository). -/
def syntaxErrorMsg : String := "Unexpected token in JSON"

/-- The error thrown when the text contains no `{...}` match at all. -/
def noJsonMsg : String := "Response does not contain valid JSON"

/-- The parse pipeline of the retry loop (`agent-executor.ts` /
`index.ts`): direct `JSON.parse` of the final text; on failure, the greedy
`{...}` slice is extracted and parsed; with no match, the
"does not contain valid JSON" error is raised. -/
def parseResponseText (text : String) : Except String Json :=
  match jsonParse text with
  | some parsed => .ok parsed
  | none =>
    match extractJsonSlice text with
    | some jsonMatch =>
      match jsonParse jsonMatch with
      | some parsed => .ok parsed
      | none => .error syntaxErrorMsg
    | none => .error noJsonMsg

/-- Modelled from the spec: "extracting the first top-level `{...}` block via
pattern match" — scans from the first `{` with a depth counter to its
matching `}`.  Defined only to compare the spec's wording with the source's
greedy extraction. -/
def firstBlockScan : List Char → Nat → List Char → Option (List Char)
  | [], _, _ => none
  | c :: rest, depth, acc =>
    if c == braceOpen then firstBlockScan rest (depth + 1) (acc ++ [c])
    else if c == braceClose then
      if depth == 1 then some (acc ++ [c])
      else firstBlockScan rest (depth - 1) (acc ++ [c])
    else firstBlockScan rest depth (acc ++ [c])

/-- Modelled from the spec: the first top-level `{...}` block of the text. -/
def firstTopLevelBlock (s : String) : Option String :=
  match firstBraceIdx s with
  | some i =>
    match firstBlockScan (s.data.drop i) 0 [] with
    | some block => some (String.mk block)
    | none => none
  | none => none

/-- The parse pipeline as the spec describes it, with the first top-level
block in place of the greedy slice.  Defined only for comparison. -/
def parseResponseTextSpec (text : String) : Except String Json :=
  match jsonParse text with
  | some parsed => .ok parsed
  | none =>
    match firstTopLevelBlock text with
    | some jsonMatch =>
      match jsonParse jsonMatch with
      | some parsed => .ok parsed
      | none => .error syntaxErrorMsg
    | none => .error noJsonMsg

/-! ### Retry/generation engine (`agent-executor.ts` `executeAgent`,
`index.ts` `runPrompt` retry loop) -/

/-- One entry of the validation-attempt log. -/
structure ValidationAttempt where
  attempt : Nat
  response : String
  error : String
deriving DecidableEq, Repr

/-- A failed attempt: either the text could not be parsed as JSON (generic
`Error`/`SyntaxError`), or the parsed value violated the schema
(`ZodError`). -/
inductive RespError where
  | parse (msg : String)
  | schema (msg : String)
deriving DecidableEq, Repr

/-- The `validationError` string recorded for a failed attempt
(`formatValidationError` output for a `ZodError`, the error message
otherwise). -/
def respErrorText : RespError → String
  | .parse m => m
  | .schema m => m

/-- Parse the final text and validate the parsed value against the schema
(`responseSchema.parse`); the caller-supplied `validate` stands for the zod
schema, already formatted through `formatValidationError` on failure. -/
def attemptParseValidate (validate : Json → Except String Json)
    (text : String) : Except RespError Json :=
  match parseResponseText text with
  | .error m => .error (.parse m)
  | .ok parsed =>
    match validate parsed with
    | .ok v => .ok v
    | .error m => .error (.schema m)

/-- The user feedback message appended for the retry attempt. -/
def retryFeedbackText : RespError → String
  | .schema m => m
  | .parse m =>
    "Your response could not be parsed as valid JSON. Error: " ++ m ++
      "\n\nPlease provide a valid JSON response matching the required schema."

/-- The fixed retry budget (`maxValidationRetries`). -/
def maxValidationRetries : Nat := 3

/-- The fatal error raised when all attempts are exhausted; embeds the
attempt count and the last validation error. -/
def fatalRetryMsg (lastError : String) : String :=
  "Failed to get valid response after " ++ toString (maxValidationRetries + 1) ++
    " attempts. Last error: " ++ lastError

/-- A message in provider-call format (role plus content). -/
structure ChatMessage where
  role : String
  content : String
deriving DecidableEq, Repr

/-- The name-to-role mapping of `buildConversationMessages`. -/
def toRole (name : String) : String :=
  if name == "system" then "system"
  else if name == "user" then "user"
  else "assistant"

/-- Converts an internal message to provider-call format. -/
def toChatMessage (m : MessageContent) : ChatMessage :=
  ⟨toRole m.name, m.content⟩

/-- `buildConversationMessages` of `agent-executor.ts`: hook-transformed
history in provider format, followed by the user-turn text. -/
def buildConversationMessages (messages : List MessageContent)
    (hooks : List MessageHook) (promptResult : String) : List ChatMessage :=
  (applyMessageHooks messages hooks).map toChatMessage ++
    [⟨"user", promptResult⟩]

/-- The observable outcome of a run of the retry loop: the result (or the
fatal error), the number of provider calls performed, and the
validation-attempt log. -/
structure EngineOutcome where
  result : Except String Json
  providerCalls : Nat
  validationAttempts : List ValidationAttempt

/-- The retry loop of `executeAgent` (`for attempt in 0..maxValidationRetries`).
The provider (streaming call plus text accumulation) is abstracted as a
function from the current message list to the final text; `attempt` is the
loop counter, `retriesLeft` the remaining iterations after this one.  On
failure with retries left, the hooks are reapplied to the original
transformed messages and the four-message retry tail is appended. -/
def executeAgentLoop (provider : List ChatMessage → String)
    (validate : Json → Except String Json) (hooks : List MessageHook)
    (transformedMessages : List MessageContent) (promptResult : String)
    (attempt retriesLeft : Nat) (currentMessages : List ChatMessage)
    (log : List ValidationAttempt) : EngineOutcome :=
  match attemptParseValidate validate (provider currentMessages) with
  | .ok v => ⟨.ok v, attempt + 1, log⟩
  | .error e =>
    match retriesLeft with
    | 0 =>
      ⟨.error (fatalRetryMsg (respErrorText e)), attempt + 1,
        log ++ [⟨attempt + 1, provider currentMessages, respErrorText e⟩]⟩
    | r + 1 =>
      executeAgentLoop provider validate hooks transformedMessages
        promptResult (attempt + 1) r
        ((applyMessageHooks transformedMessages hooks).map toChatMessage ++
          [⟨"user", promptResult⟩, ⟨"assistant", provider currentMessages⟩,
           ⟨"user", retryFeedbackText e⟩])
        (log ++ [⟨attempt + 1, provider currentMessages, respErrorText e⟩])

/-- `executeAgent` in the schema-declared case: transform the stored
messages through the hook pipeline, build the conversation, and run the
retry loop with an empty validation log. -/
def executeAgentWithSchema (provider : List ChatMessage → String)
    (validate : Json → Except String Json) (hooks : List MessageHook)
    (messages : List MessageContent) (promptResult : String) : EngineOutcome :=
  let transformedMessages := applyMessageHooks messages hooks
  executeAgentLoop provider validate hooks transformedMessages promptResult
    0 maxValidationRetries
    (buildConversationMessages messages hooks promptResult) []

/-- Loop unfolding when every provider response fails validation. -/
lemma executeAgentLoop_all_fail (provider : List ChatMessage → String)
    (validate : Json → Except String Json) (hooks : List MessageHook)
    (tmsgs : List MessageContent) (prompt : String)
    (hreject : ∀ ms, ∃ e, attemptParseValidate validate (provider ms) =
      Except.error e) :
    ∀ (r attempt : Nat) (msgs : List ChatMessage)
      (log : List ValidationAttempt),
    ∃ (e : RespError) (newEntries : List ValidationAttempt),
      executeAgentLoop provider validate hooks tmsgs prompt
          attempt r msgs log =
        ⟨Except.error (fatalRetryMsg (respErrorText e)), attempt + r + 1,
          log ++ newEntries⟩ ∧
      newEntries.length = r + 1 ∧
      newEntries.map (fun a => a.attempt) = List.range' (attempt + 1) (r + 1) ∧
      (∃ t, newEntries.getLast? = some ⟨attempt + r + 1, t, respErrorText e⟩) := by
  intro r
  induction r with
  | zero =>
    intro attempt msgs log
    obtain ⟨e, he⟩ := hreject msgs
    refine ⟨e, [⟨attempt + 1, provider msgs, respErrorText e⟩], ?_, rfl, ?_, ?_⟩
    · rw [executeAgentLoop]
      simp only [he]
    · rfl
    · exact ⟨provider msgs, rfl⟩
  | succ r ih =>
    intro attempt msgs log
    obtain ⟨e0, he0⟩ := hreject msgs
    obtain ⟨e, entries, heq, hlen, hmap, t, hlast⟩ :=
      ih (attempt + 1)
        ((applyMessageHooks tmsgs hooks).map toChatMessage ++
          [⟨"user", prompt⟩, ⟨"assistant", provider msgs⟩,
           ⟨"user", retryFeedbackText e0⟩])
        (log ++ [⟨attempt + 1, provider msgs, respErrorText e0⟩])
    refine ⟨e, ⟨attempt + 1, provider msgs, respErrorText e0⟩ :: entries,
      ?_, ?_, ?_, ?_⟩
    · rw [executeAgentLoop]
      simp only [he0]
      rw [heq]
      congr 1
      · omega
      · simp
    · simp [hlen]
    · simp only [List.map_cons, hmap]
      rfl
    · refine ⟨t, ?_⟩
      cases entries with
      | nil => exact absurd hlen (by simp)
      | cons b tl =>
        rw [List.getLast?_cons_cons]
        rw [hlast]
        have harith : attempt + 1 + r + 1 = attempt + (r + 1) + 1 := by omega
        rw [harith]

/-- C5: when the declared schema rejects every response, the engine performs
exactly `maxValidationRetries + 1 = 4` provider calls, appends one
`ValidationAttempt` per failed attempt so the log has exactly 4 entries
(numbered 1..4), and raises a fatal error embedding the last validation
error and the attempt count. -/
theorem engine_retry_bound (provider : List ChatMessage → String)
    (validate : Json → Except String Json) (hooks : List MessageHook)
    (messages : List MessageContent) (promptResult : String)
    (hreject : ∀ ms, ∃ e, attemptParseValidate validate (provider ms) =
      Except.error e) :
    ∃ e : RespError,
      (executeAgentWithSchema provider validate hooks messages
          promptResult).result =
        Except.error (fatalRetryMsg (respErrorText e)) ∧
      (executeAgentWithSchema provider validate hooks messages
          promptResult).providerCalls = maxValidationRetries + 1 ∧
      (executeAgentWithSchema provider validate hooks messages
          promptResult).validationAttempts.length = maxValidationRetries + 1 ∧
      (executeAgentWithSchema provider validate hooks messages
          promptResult).validationAttempts.map (fun a => a.attempt) =
        [1, 2, 3, 4] ∧
      (∃ t, (executeAgentWithSchema provider validate hooks messages
          promptResult).validationAttempts.getLast? =
        some ⟨maxValidationRetries + 1, t, respErrorText e⟩) := by
  obtain ⟨e, entries, heq, hlen, hmap, t, hlast⟩ :=
    executeAgentLoop_all_fail provider validate hooks
      (applyMessageHooks messages hooks) promptResult hreject
      maxValidationRetries 0
      (buildConversationMessages messages hooks promptResult) []
  refine ⟨e, ?_, ?_, ?_, ?_, ⟨t, ?_⟩⟩
  · rw [executeAgentWithSchema, heq]
  · rw [executeAgentWithSchema, heq]
    dsimp only
    omega
  · rw [executeAgentWithSchema, heq]
    simpa using hlen
  · rw [executeAgentWithSchema, heq]
    dsimp only
    rw [List.nil_append, hmap]
    rfl
  · rw [executeAgentWithSchema, heq]
    simpa using hlast

/-- Provider always answering unparsable text, for the C5 witness. -/
def exProvider : List ChatMessage → String := fun _ => "not json"

/-- Schema stand-in rejecting every value, for the C5 witness. -/
def exValidate : Json → Except String Json := fun _ => Except.error "rejected"

/-- Witness for C5 at a concrete provider and schema. -/
theorem engine_retry_bound_witness :
    ∃ e : RespError,
      (executeAgentWithSchema exProvider exValidate [] [] "p").result =
        Except.error (fatalRetryMsg (respErrorText e)) ∧
      (executeAgentWithSchema exProvider exValidate [] [] "p").providerCalls =
        maxValidationRetries + 1 ∧
      (executeAgentWithSchema exProvider exValidate [] [] "p"
          ).validationAttempts.length = maxValidationRetries + 1 ∧
      (executeAgentWithSchema exProvider exValidate [] [] "p"
          ).validationAttempts.map (fun a => a.attempt) = [1, 2, 3, 4] ∧
      (∃ t, (executeAgentWithSchema exProvider exValidate [] [] "p"
          ).validationAttempts.getLast? =
        some ⟨maxValidationRetries + 1, t, respErrorText e⟩) :=
  engine_retry_bound exProvider exValidate [] [] "p"
    (fun _ => ⟨RespError.parse noJsonMsg, rfl⟩)

/-- C6 counterexample input: two top-level JSON objects separated by text.
The greedy `/\{[\s\S]*\}/` extraction of the source grabs the whole span
(first `{` to last `}`), whose parse fails, while the first top-level
`{...}` block described by the claim parses successfully. -/
def cexText : String := "\x7b\"a\":1\x7d x \x7b\"b\":2\x7d"

/-- C6 counterexample: at `cexText` the source pipeline fails with a parse
error, whereas the claimed first-top-level-block extraction succeeds, so the
claim as stated does not describe the code. -/
theorem parseResponse_extraction_counterexample :
    parseResponseText cexText = Except.error syntaxErrorMsg ∧
    parseResponseTextSpec cexText = Except.ok (Json.obj [("a", Json.num 1)]) ∧
    firstTopLevelBlock cexText = some "\x7b\"a\":1\x7d" ∧
    extractJsonSlice cexText = some cexText ∧
    parseResponseText cexText ≠ parseResponseTextSpec cexText :=
  ⟨rfl, rfl, rfl, rfl, by
    intro h
    rw [show parseResponseText cexText = Except.error syntaxErrorMsg from rfl] at h
    rw [show parseResponseTextSpec cexText =
        Except.ok (Json.obj [("a", Json.num 1)]) from rfl] at h
    cases h⟩

/-- C6 (amended): with a schema declared, the engine first attempts a direct
JSON parse of the final text; exactly when that fails it extracts the
substring from the first `{` to the last `}` of the text (the greedy
`/\{[\s\S]*\}/` match, not the first top-level block) and parses that, and
the value parsed by whichever step succeeded is validated against the schema
with the validated value returned on success. -/
theorem parseResponse_amended (text : String) :
    (∀ v, jsonParse text = some v → parseResponseText text = Except.ok v) ∧
    (jsonParse text = none →
      parseResponseText text =
        match extractJsonSlice text with
        | some m =>
          (match jsonParse m with
           | some v => Except.ok v
           | none => Except.error syntaxErrorMsg)
        | none => Except.error noJsonMsg) ∧
    (∀ i j, firstBraceIdx text = some i → lastCloseIdx text = some j →
      i < j →
      extractJsonSlice text =
        some (String.mk ((text.data.drop i).take (j - i + 1)))) ∧
    (∀ validate v w, parseResponseText text = Except.ok v →
      validate v = Except.ok w →
      attemptParseValidate validate text = Except.ok w) := by
  refine ⟨?_, ?_, ?_, ?_⟩
  · intro v hv
    simp [parseResponseText, hv]
  · intro hnone
    simp only [parseResponseText, hnone]
  · intro i j hi hj hij
    simp [extractJsonSlice, hi, hj, hij]
  · intro validate v w hv hw
    simp [attemptParseValidate, hv, hw]

/-- Witness for the amended C6: direct parse fails on the leading noise, the
greedy slice parses, and an accepting schema returns the parsed object. -/
theorem parseResponse_amended_witness :
    attemptParseValidate (fun v => Except.ok v) "x \x7b\"a\":2\x7d" =
      Except.ok (Json.obj [("a", Json.num 2)]) := by
  have h := parseResponse_amended "x \x7b\"a\":2\x7d"
  have hp : parseResponseText "x \x7b\"a\":2\x7d" =
      Except.ok (Json.obj [("a", Json.num 2)]) := by
    rw [h.2.1 rfl]
    rfl
  exact h.2.2.2 (fun v => Except.ok v) (Json.obj [("a", Json.num 2)])
    (Json.obj [("a", Json.num 2)]) hp rfl

/-! ### Dynamic task list (`dynamic-task-list.ts`)

The source keeps a `Map<string, DynamicTask>` plus a `taskOrder : string[]`
maintained in lockstep (`createTask` pushes to both, `deleteTask` removes
from both, the other tools mutate map entries in place).  The embedding
merges the two into one insertion-ordered task list. -/

/-- Status of a dynamic task. -/
inductive TaskStatus where
  | pending
  | inProgress
  | completed
deriving DecidableEq, Repr

/-- A dynamic task record. -/
structure DynamicTask where
  id : String
  description : String
  status : TaskStatus
  result : Option String
  createdAt : Nat
  completedAt : Option Nat
deriving DecidableEq, Repr

/-- The closure state of `defDynamicTaskList`. -/
structure DynamicTaskListState where
  tasks : List DynamicTask
  nextId : Nat
  hasStarted : Bool
deriving DecidableEq, Repr

/-- The state installed by `defDynamicTaskList` before any tool call. -/
def initDynState : DynamicTaskListState :=
  { tasks := [], nextId := 1, hasStarted := false }

/-- The id string allocated by `generateTaskId` for counter value `n`
(`toString` of a natural number is `Nat.repr`). -/
def taskIdString (n : Nat) : String := "task-" ++ Nat.repr n

/-- Decimal value of a digit-character list; used to invert `Nat.repr`. -/
def digitsVal (l : List Char) : Nat :=
  l.foldl (fun a c => a * 10 + (c.toNat - 48)) 0

lemma digitChar_toNat_sub (d : Nat) (h : d < 10) :
    (Nat.digitChar d).toNat - 48 = d := by
  interval_cases d <;> rfl

lemma toDigitsCore_foldl (f : Nat) : ∀ (n : Nat) (acc : List Char), n < f →
    List.foldl (fun a c => a * 10 + (c.toNat - 48)) 0
        (Nat.toDigitsCore 10 f n acc) =
      List.foldl (fun a c => a * 10 + (c.toNat - 48)) n acc := by
  induction f with
  | zero => intro n acc h; exact absurd h (Nat.not_lt_zero n)
  | succ f ih =>
    intro n acc h
    by_cases hdiv : n / 10 = 0
    · simp only [Nat.toDigitsCore, hdiv, if_true]
      rw [List.foldl_cons]
      rw [digitChar_toNat_sub (n % 10) (Nat.mod_lt n (by norm_num))]
      have hm : 0 * 10 + n % 10 = n := by omega
      rw [hm]
    · simp only [Nat.toDigitsCore, hdiv, if_false]
      rw [ih (n / 10) (Nat.digitChar (n % 10) :: acc) (by omega)]
      rw [List.foldl_cons]
      rw [digitChar_toNat_sub (n % 10) (Nat.mod_lt n (by omega))]
      have hm : n / 10 * 10 + n % 10 = n := by omega
      rw [hm]

/-- `digitsVal` recovers the number from its decimal rendering. -/
lemma nat_repr_val (n : Nat) : digitsVal (Nat.repr n).data = n := by
  have h : (Nat.repr n).data = Nat.toDigitsCore 10 (n + 1) n [] := rfl
  rw [digitsVal, h]
  exact toDigitsCore_foldl (n + 1) n [] (Nat.lt_succ_self n)

/-- Distinct counter values render to distinct id strings. -/
lemma taskIdString_injective {a b : Nat} (h : taskIdString a = taskIdString b) :
    a = b := by
  have hd : ("task-" : String).data ++ (Nat.repr a).data =
      ("task-" : String).data ++ (Nat.repr b).data := by
    have h2 : (taskIdString a).data = (taskIdString b).data := by rw [h]
    exact h2
  have hdd : (Nat.repr a).data = (Nat.repr b).data :=
    List.append_cancel_left hd
  calc a = digitsVal (Nat.repr a).data := (nat_repr_val a).symm
    _ = digitsVal (Nat.repr b).data := congrArg digitsVal hdd
    _ = b := nat_repr_val b

/-- How JavaScript prints an optional value inside a template literal
(`undefined` when absent). -/
def optStr : Option String → String
  | some s => s
  | none => "undefined"

/-- `state.tasks.get(taskId)` (with the map/order-sync invariant, lookup in
the merged list). -/
def findTask (st : DynamicTaskListState) (taskId : String) :
    Option DynamicTask :=
  st.tasks.find? (fun t => t.id == taskId)

/-- Tasks with status `completed`, in insertion order. -/
def completedDynTasks (st : DynamicTaskListState) : List DynamicTask :=
  st.tasks.filter (fun t => t.status == TaskStatus.completed)

/-- Tasks with status `pending`, in insertion order. -/
def pendingDynTasks (st : DynamicTaskListState) : List DynamicTask :=
  st.tasks.filter (fun t => t.status == TaskStatus.pending)

/-- Tasks with status `in_progress`, in insertion order. -/
def inProgressDynTasks (st : DynamicTaskListState) : List DynamicTask :=
  st.tasks.filter (fun t => t.status == TaskStatus.inProgress)

/-- `[id] description`, as used by `formatTaskList`. -/
def taskInfoLine (t : DynamicTask) : String :=
  "[" ++ t.id ++ "] " ++ t.description

/-- `formatTaskList` of `dynamic-task-list.ts`. -/
def formatTaskList (st : DynamicTaskListState) : String :=
  if st.tasks.length == 0 then "No tasks in the list."
  else
    let completedLines := (completedDynTasks st).map fun t =>
      "✓ " ++ taskInfoLine t ++ "\n  Result: " ++ optStr t.result
    let inProgressLines := (inProgressDynTasks st).map fun t =>
      "→ " ++ taskInfoLine t
    let pendingLines := (pendingDynTasks st).map fun t =>
      "○ " ++ taskInfoLine t
    let parts : List String :=
      (if completedLines.length > 0 then
        ["Completed (" ++ toString completedLines.length ++ "):\n" ++
          String.intercalate "\n" completedLines] else [])
      ++ (if inProgressLines.length > 0 then
        ["In Progress (" ++ toString inProgressLines.length ++ "):\n" ++
          String.intercalate "\n" inProgressLines] else [])
      ++ (if pendingLines.length > 0 then
        ["Pending (" ++ toString pendingLines.length ++ "):\n" ++
          String.intercalate "\n" pendingLines] else [])
    String.intercalate "\n\n"
      (("Task List Overview: " ++ toString completedLines.length ++ "/" ++
        toString st.tasks.length ++ " completed\n") :: parts)

/-- The `createTask` tool executor. -/
def createTask (st : DynamicTaskListState) (description : String)
    (now : Nat) : DynamicTaskListState × String :=
  let taskId := taskIdString st.nextId
  let task : DynamicTask :=
    { id := taskId, description := description, status := TaskStatus.pending
      result := none, createdAt := now, completedAt := none }
  let st2 : DynamicTaskListState :=
    { tasks := st.tasks ++ [task], nextId := st.nextId + 1, hasStarted := true }
  (st2, "✓ Created task " ++ taskId ++ ": \"" ++ description ++
    "\"\n\nTotal tasks: " ++ toString st2.tasks.length)

/-- The `updateTask` tool executor. -/
def updateTask (st : DynamicTaskListState) (taskId newDescription : String) :
    DynamicTaskListState × String :=
  match findTask st taskId with
  | none => (st, "✗ Error: Task " ++ taskId ++ " not found.")
  | some task =>
    if task.status == TaskStatus.completed then
      (st, "✗ Error: Cannot update completed task " ++ taskId ++ ".")
    else if task.status == TaskStatus.inProgress then
      (st, "✗ Error: Cannot update in-progress task " ++ taskId ++
        ". Complete it first or create a new task.")
    else
      ({ st with tasks := st.tasks.map fun t =>
          if t.id == taskId then { t with description := newDescription }
          else t },
       "✓ Updated task " ++ taskId ++ ":\n  Old: \"" ++ task.description ++
        "\"\n  New: \"" ++ newDescription ++ "\"")

/-- The `startTask` tool executor. -/
def startTask (st : DynamicTaskListState) (taskId : String) :
    DynamicTaskListState × String :=
  match findTask st taskId with
  | none => (st, "✗ Error: Task " ++ taskId ++ " not found.")
  | some task =>
    if task.status == TaskStatus.completed then
      (st, "✗ Error: Task " ++ taskId ++ " is already completed.")
    else if task.status == TaskStatus.inProgress then
      (st, "✗ Warning: Task " ++ taskId ++ " is already in progress.")
    else
      ({ st with tasks := st.tasks.map fun t =>
          if t.id == taskId then { t with status := TaskStatus.inProgress }
          else t },
       "✓ Started task " ++ taskId ++ ": \"" ++ task.description ++ "\"")

/-- The `completeTask` tool executor. -/
def completeTask (st : DynamicTaskListState) (taskId result : String)
    (now : Nat) : DynamicTaskListState × String :=
  match findTask st taskId with
  | none => (st, "✗ Error: Task " ++ taskId ++ " not found.")
  | some task =>
    if task.status == TaskStatus.completed then
      (st, "✗ Error: Task " ++ taskId ++ " is already completed.")
    else
      let st2 : DynamicTaskListState :=
        { st with tasks := st.tasks.map fun t =>
            if t.id == taskId then
              { t with status := TaskStatus.completed, result := some result
                       completedAt := some now }
            else t }
      let completed := (completedDynTasks st2).length
      let total := st2.tasks.length
      if completed == total then
        (st2, "✓ Task " ++ taskId ++ " completed!\n  Result: " ++ result ++
          "\n\n🎉 All tasks completed! (" ++ toString completed ++ "/" ++
          toString total ++ ")")
      else
        (st2, "✓ Task " ++ taskId ++ " completed!\n  Result: " ++ result ++
          "\n\nProgress: " ++ toString completed ++ "/" ++ toString total ++
          " tasks completed")

/-- The `deleteTask` tool executor. -/
def deleteTask (st : DynamicTaskListState) (taskId : String) :
    DynamicTaskListState × String :=
  match findTask st taskId with
  | none => (st, "✗ Error: Task " ++ taskId ++ " not found.")
  | some task =>
    if task.status == TaskStatus.completed then
      (st, "✗ Error: Cannot delete completed task " ++ taskId ++ ".")
    else if task.status == TaskStatus.inProgress then
      (st, "✗ Error: Cannot delete in-progress task " ++ taskId ++ ".")
    else
      let st2 : DynamicTaskListState :=
        { st with tasks := st.tasks.filter fun t => !(t.id == taskId) }
      (st2, "✓ Deleted task " ++ taskId ++ ": \"" ++ task.description ++
        "\"\n\nRemaining tasks: " ++ toString st2.tasks.length)

/-- The `getTaskList` tool executor. -/
def getTaskList (st : DynamicTaskListState) : DynamicTaskListState × String :=
  (st, formatTaskList st)

/-- One call to one of the six dynamic-task tools (`now` is the `Date.now()`
value observed by the call). -/
inductive DynOp where
  | create (description : String) (now : Nat)
  | update (taskId newDescription : String)
  | start (taskId : String)
  | complete (taskId result : String) (now : Nat)
  | delete (taskId : String)
  | list

/-- Dispatches one tool call. -/
def applyDynOp (st : DynamicTaskListState) : DynOp → DynamicTaskListState × String
  | .create d now => createTask st d now
  | .update tid nd => updateTask st tid nd
  | .start tid => startTask st tid
  | .complete tid r now => completeTask st tid r now
  | .delete tid => deleteTask st tid
  | .list => getTaskList st

/-- Applies a sequence of tool calls. -/
def runDynOps (st : DynamicTaskListState) : List DynOp → DynamicTaskListState
  | [] => st
  | op :: ops => runDynOps (applyDynOp st op).1 ops

/-- The list of states visited by a sequence of tool calls, start included. -/
def dynTrace (st : DynamicTaskListState) : List DynOp → List DynamicTaskListState
  | [] => [st]
  | op :: ops => st :: dynTrace (applyDynOp st op).1 ops

/-- The counter values allocated by the `createTask` calls of a sequence, in
call order (`task-<n>` is allocated for counter value `n`). -/
def createdIdNums (st : DynamicTaskListState) : List DynOp → List Nat
  | [] => []
  | DynOp.create d now :: ops =>
    st.nextId :: createdIdNums (applyDynOp st (DynOp.create d now)).1 ops
  | op :: ops => createdIdNums (applyDynOp st op).1 ops

/-- The operating-instructions system message pushed first by the dynamic
task-list hook. -/
def dynInstructionsText : String :=
  "You are working through a dynamic task list. Each task must be completed.\n" ++
  "Use completeTask with the task ID and your result to finish each task.\n" ++
  "Focus on the current task below. Previous tasks are summarized for context.\n" ++
  "Continue until all tasks are completed."

/-- One line of the hook's completed-tasks summary. -/
def dynCompletedLine (t : DynamicTask) : String :=
  "✓ [" ++ t.id ++ "] " ++ t.description ++ "\n  Result: " ++ optStr t.result

/-- The completed-tasks summary section of the hook output (present exactly
when at least one task is completed). -/
def completedSummarySection (st : DynamicTaskListState) : List MessageContent :=
  if (completedDynTasks st).length > 0 then
    [⟨"system", "Completed tasks (" ++ toString (completedDynTasks st).length ++
      "/" ++ toString st.tasks.length ++ "):\n\n" ++
      String.intercalate "\n\n" ((completedDynTasks st).map dynCompletedLine)⟩]
  else []

/-- `remainingPending` of the hook: all pending tasks when some task is in
progress (the current task is that in-progress task), otherwise the pending
tasks after the first (the current task is the first pending one). -/
def remainingPendingTasks (st : DynamicTaskListState) : List DynamicTask :=
  (pendingDynTasks st).drop
    (if (inProgressDynTasks st).length == 0 then 1 else 0)

/-- The upcoming-tasks section of the hook output. -/
def upcomingSection (st : DynamicTaskListState) : List MessageContent :=
  if (remainingPendingTasks st).length > 0 then
    [⟨"system", "Upcoming tasks:\n" ++ String.intercalate "\n"
      ((remainingPendingTasks st).map fun t => t.id ++ ". " ++ t.description)⟩]
  else []

/-- The in-progress reminder system message. -/
def reminderMsg (t : DynamicTask) : MessageContent :=
  ⟨"system", "Task " ++ t.id ++ " is in progress. Complete it using: " ++
    "completeTask(\x7b\"taskId\":\"" ++ t.id ++
    "\",\"result\":\"your result here\"\x7d)"⟩

/-- The user message naming the current task. -/
def currentUserMsg (t : DynamicTask) : MessageContent :=
  ⟨"user", "[" ++ t.id ++ "] " ++ t.description⟩

/-- The hook's choice of current task: the first in-progress task if any is
in progress (flag `true`), else the first pending task (flag `false`). -/
def currentDynTask (st : DynamicTaskListState) : Option (DynamicTask × Bool) :=
  match inProgressDynTasks st with
  | t :: _ => some (t, true)
  | [] =>
    match pendingDynTasks st with
    | t :: _ => some (t, false)
    | [] => none

/-- The current-task block of the hook output: the user message naming the
current task, preceded by the reminder when that task is in progress. -/
def currentTaskSection (st : DynamicTaskListState) : List MessageContent :=
  match currentDynTask st with
  | some (t, true) => [reminderMsg t, currentUserMsg t]
  | some (t, false) => [currentUserMsg t]
  | none => []

/-- The final-summary user message shown when every task is completed. -/
def finalSummaryMsg (st : DynamicTaskListState) : MessageContent :=
  ⟨"user", "All " ++ toString st.tasks.length ++
    " tasks completed successfully. Provide a brief summary."⟩

/-- The hook registered by `defDynamicTaskList` (`ctx.defHook` callback):
returns the input unchanged until a task has been created (and when the
order list is empty), and otherwise fully rebuilds the history. -/
def dynamicTaskHook (st : DynamicTaskListState)
    (messages : List MessageContent) : List MessageContent :=
  if !st.hasStarted || st.tasks.length == 0 then messages
  else
    ⟨"system", dynInstructionsText⟩ ::
      (completedSummarySection st ++
        ((if !((completedDynTasks st).length == st.tasks.length) then
            upcomingSection st
          else []) ++
         (if !((completedDynTasks st).length == st.tasks.length) then
            currentTaskSection st
          else [finalSummaryMsg st])))

/-- All-completed (as the hook computes it, by comparing counts) is the same
as every task having status `completed`. -/
lemma completed_count_iff (st : DynamicTaskListState) :
    (completedDynTasks st).length = st.tasks.length ↔
      ∀ t ∈ st.tasks, t.status = TaskStatus.completed := by
  have h0 := @List.filter_length_eq_length DynamicTask
    (fun t => t.status == TaskStatus.completed) st.tasks
  rw [completedDynTasks, h0]
  simp

/-- C3: the dynamic task-list hook returns the input unchanged before any
task has been created; once at least one task exists and some task is not
completed, it returns a fully rebuilt history — system instructions, the
completed-tasks summary, the upcoming-tasks listing excluding the current
task, and a user message naming the current task (the first in-progress task
if one exists, else the first pending task), preceded by a reminder system
message when that task is in progress; when every task is completed it ends
with a user message requesting a final summary instead. -/
theorem dynamicHook_spec (st : DynamicTaskListState)
    (msgs : List MessageContent) :
    (st.hasStarted = false → dynamicTaskHook st msgs = msgs) ∧
    (st.tasks = [] → dynamicTaskHook st msgs = msgs) ∧
    ((completedDynTasks st).length = st.tasks.length ↔
      ∀ t ∈ st.tasks, t.status = TaskStatus.completed) ∧
    (st.hasStarted = true → st.tasks ≠ [] →
      (∃ t ∈ st.tasks, t.status ≠ TaskStatus.completed) →
      ∃ cur isProg, currentDynTask st = some (cur, isProg) ∧
        dynamicTaskHook st msgs =
          ⟨"system", dynInstructionsText⟩ ::
            (completedSummarySection st ++ upcomingSection st ++
              ((if isProg then [reminderMsg cur] else []) ++
                [currentUserMsg cur])) ∧
        (isProg = true → (inProgressDynTasks st).head? = some cur ∧
          remainingPendingTasks st = pendingDynTasks st) ∧
        (isProg = false → inProgressDynTasks st = [] ∧
          (pendingDynTasks st).head? = some cur ∧
          remainingPendingTasks st = (pendingDynTasks st).drop 1)) ∧
    (st.hasStarted = true → st.tasks ≠ [] →
      (∀ t ∈ st.tasks, t.status = TaskStatus.completed) →
      dynamicTaskHook st msgs =
        ⟨"system", dynInstructionsText⟩ ::
          (completedSummarySection st ++ [finalSummaryMsg st])) := by
  refine ⟨?_, ?_, completed_count_iff st, ?_, ?_⟩
  · intro h
    simp [dynamicTaskHook, h]
  · intro h
    simp [dynamicTaskHook, h]
  · intro hs hne hex
    have hnall : ¬((completedDynTasks st).length = st.tasks.length) := by
      intro hall
      obtain ⟨t, ht, hts⟩ := hex
      exact hts ((completed_count_iff st).mp hall t ht)
    have hnallb : ((completedDynTasks st).length == st.tasks.length) = false := by
      simpa using hnall
    have hcond : (!st.hasStarted || st.tasks.length == 0) = false := by
      simp [hs, hne]
    cases hip : inProgressDynTasks st with
    | cons t rest =>
      refine ⟨t, true, by simp [currentDynTask, hip], ?_, ?_, ?_⟩
      · rw [dynamicTaskHook, hcond]
        simp only [Bool.false_eq_true, if_false, hnallb, Bool.not_false, if_true]
        simp [currentTaskSection, currentDynTask, hip, List.append_assoc]
      · intro _
        refine ⟨rfl, ?_⟩
        rw [remainingPendingTasks, hip]
        simp
      · intro h
        simp at h
    | nil =>
      cases hp : pendingDynTasks st with
      | nil =>
        exfalso
        obtain ⟨t, ht, hts⟩ := hex
        cases hstatus : t.status with
        | completed => exact hts hstatus
        | pending =>
          have hmem : t ∈ pendingDynTasks st := by
            rw [pendingDynTasks]
            exact List.mem_filter.mpr ⟨ht, by simp [hstatus]⟩
          rw [hp] at hmem
          simp at hmem
        | inProgress =>
          have hmem : t ∈ inProgressDynTasks st := by
            rw [inProgressDynTasks]
            exact List.mem_filter.mpr ⟨ht, by simp [hstatus]⟩
          rw [hip] at hmem
          simp at hmem
      | cons t rest =>
        refine ⟨t, false, by simp [currentDynTask, hip, hp], ?_, ?_, ?_⟩
        · rw [dynamicTaskHook, hcond]
          simp only [Bool.false_eq_true, if_false, hnallb, Bool.not_false,
            if_true]
          simp [currentTaskSection, currentDynTask, hip, hp,
            List.append_assoc]
        · intro h
          simp at h
        · intro _
          refine ⟨rfl, rfl, ?_⟩
          rw [remainingPendingTasks, hip, hp]
          simp
  · intro hs hne hall
    have hallb : ((completedDynTasks st).length == st.tasks.length) = true := by
      simpa using (completed_count_iff st).mpr hall
    have hcond : (!st.hasStarted || st.tasks.length == 0) = false := by
      simp [hs, hne]
    rw [dynamicTaskHook, hcond]
    simp only [Bool.false_eq_true, if_false, hallb, Bool.not_true]
    simp

/-- Concrete one-pending-task state for the C3 witness. -/
def exDynTask : DynamicTask :=
  { id := "task-1", description := "A", status := TaskStatus.pending
    result := none, createdAt := 0, completedAt := none }

/-- Concrete state for the C3 witness. -/
def exDynState : DynamicTaskListState :=
  { tasks := [exDynTask], nextId := 2, hasStarted := true }

/-- Witness for C3 at a concrete started state with one pending task. -/
theorem dynamicHook_spec_witness :
    ∃ cur isProg, currentDynTask exDynState = some (cur, isProg) ∧
      dynamicTaskHook exDynState [] =
        ⟨"system", dynInstructionsText⟩ ::
          (completedSummarySection exDynState ++ upcomingSection exDynState ++
            ((if isProg then [reminderMsg cur] else []) ++
              [currentUserMsg cur])) ∧
      (isProg = true → (inProgressDynTasks exDynState).head? = some cur ∧
        remainingPendingTasks exDynState = pendingDynTasks exDynState) ∧
      (isProg = false → inProgressDynTasks exDynState = [] ∧
        (pendingDynTasks exDynState).head? = some cur ∧
        remainingPendingTasks exDynState =
          (pendingDynTasks exDynState).drop 1) :=
  (dynamicHook_spec exDynState []).2.2.2.1 rfl (by simp [exDynState])
    ⟨exDynTask, by simp [exDynState], by simp [exDynTask]⟩

/-- Position of a status along the one-way `pending → in_progress →
completed` lane. -/
def statusRank : TaskStatus → Nat
  | .pending => 0
  | .inProgress => 1
  | .completed => 2

/-- Between two states, every task (matched by id) only moves forward along
the status lane. -/
def statusForward (s s2 : DynamicTaskListState) : Prop :=
  ∀ t ∈ s.tasks, ∀ t2 ∈ s2.tasks, t.id = t2.id →
    statusRank t.status ≤ statusRank t2.status

/-- Reachability invariant of the dynamic list: every task id was rendered
from a counter value below `nextId`, and task ids are pairwise distinct. -/
def dynInvariant (st : DynamicTaskListState) : Prop :=
  (∀ t ∈ st.tasks, ∃ k, t.id = taskIdString k ∧ k < st.nextId) ∧
  (st.tasks.map DynamicTask.id).Nodup

/-- With distinct ids, a task is determined by its id. -/
lemma nodup_task_eq {st : DynamicTaskListState}
    (hnd : (st.tasks.map DynamicTask.id).Nodup) {t u : DynamicTask}
    (ht : t ∈ st.tasks) (hu : u ∈ st.tasks) (hid : t.id = u.id) : t = u :=
  List.inj_on_of_nodup_map hnd ht hu hid

/-- Forward-status holds towards any state whose tasks all come from the
current (id-distinct) task list unchanged. -/
lemma statusForward_of_sub {st : DynamicTaskListState}
    (hnd : (st.tasks.map DynamicTask.id).Nodup)
    {tasks2 : List DynamicTask} (hsub : ∀ t2 ∈ tasks2, t2 ∈ st.tasks) :
    ∀ t ∈ st.tasks, ∀ t2 ∈ tasks2, t.id = t2.id →
      statusRank t.status ≤ statusRank t2.status := by
  intro t ht t2 ht2 hid
  rw [nodup_task_eq hnd ht (hsub t2 ht2) hid]

/-- Forward-status holds towards a pointwise update that never lowers a
task's rank and keeps every id. -/
lemma statusForward_of_map {st : DynamicTaskListState}
    (hnd : (st.tasks.map DynamicTask.id).Nodup)
    {f : DynamicTask → DynamicTask}
    (hid : ∀ u, (f u).id = u.id)
    (hrank : ∀ u ∈ st.tasks, statusRank u.status ≤ statusRank (f u).status) :
    ∀ t ∈ st.tasks, ∀ t2 ∈ st.tasks.map f, t.id = t2.id →
      statusRank t.status ≤ statusRank t2.status := by
  intro t ht t2 ht2 hideq
  obtain ⟨u, hu, hfu⟩ := List.mem_map.mp ht2
  have hidu : t.id = u.id := by rw [hideq, ← hfu, hid u]
  have heq := nodup_task_eq hnd ht hu hidu
  subst heq
  rw [← hfu]
  exact hrank t hu

/-- The task found by `state.tasks.get(taskId)` is the unique list member
with that id. -/
lemma found_task_eq {st : DynamicTaskListState}
    (hnd : (st.tasks.map DynamicTask.id).Nodup) {taskId : String}
    {task : DynamicTask} (hf : findTask st taskId = some task)
    {u : DynamicTask} (hu : u ∈ st.tasks) (huid : (u.id == taskId) = true) :
    u = task := by
  have hf' : st.tasks.find? (fun t => t.id == taskId) = some task := hf
  have htmem : task ∈ st.tasks := List.mem_of_find?_eq_some hf'
  have htid : (task.id == taskId) = true := by
    have h := List.find?_some hf'
    simpa using h
  exact nodup_task_eq hnd hu htmem
    ((eq_of_beq huid).trans (eq_of_beq htid).symm)

/-- Every tool call only moves task statuses forward. -/
lemma applyDynOp_statusForward (st : DynamicTaskListState) (op : DynOp)
    (hinv : dynInvariant st) : statusForward st (applyDynOp st op).1 := by
  cases op with
  | list =>
    exact statusForward_of_sub hinv.2 (fun t2 ht2 => ht2)
  | create d now =>
    intro t ht t2 ht2 hid
    simp only [applyDynOp, createTask] at ht2
    rcases List.mem_append.mp ht2 with h2 | h2
    · rw [nodup_task_eq hinv.2 ht h2 hid]
    · have h2' := List.mem_singleton.mp h2
      obtain ⟨k, hk, hklt⟩ := hinv.1 t ht
      rw [h2'] at hid
      have : t.id = taskIdString st.nextId := hid
      rw [hk] at this
      exact absurd (taskIdString_injective this) (by omega)
  | update tid nd =>
    cases hf : findTask st tid with
    | none =>
      have hstate : (applyDynOp st (.update tid nd)).1 = st := by
        simp [applyDynOp, updateTask, hf]
      rw [hstate]
      exact statusForward_of_sub hinv.2 (fun t2 ht2 => ht2)
    | some task =>
      by_cases h1 : (task.status == TaskStatus.completed) = true
      · have hstate : (applyDynOp st (.update tid nd)).1 = st := by
          simp [applyDynOp, updateTask, hf, h1]
        rw [hstate]
        exact statusForward_of_sub hinv.2 (fun t2 ht2 => ht2)
      · by_cases h2 : (task.status == TaskStatus.inProgress) = true
        · have hstate : (applyDynOp st (.update tid nd)).1 = st := by
            simp [applyDynOp, updateTask, hf, h1, h2]
          rw [hstate]
          exact statusForward_of_sub hinv.2 (fun t2 ht2 => ht2)
        · have hstate : (applyDynOp st (.update tid nd)).1 =
              { st with tasks := st.tasks.map fun t =>
                  if t.id == tid then { t with description := nd } else t } := by
            simp [applyDynOp, updateTask, hf, h1, h2]
          rw [hstate]
          refine statusForward_of_map hinv.2 ?_ ?_
          · intro u
            dsimp only
            split <;> rfl
          · intro u _
            dsimp only
            split <;> exact le_refl _
  | start tid =>
    cases hf : findTask st tid with
    | none =>
      have hstate : (applyDynOp st (.start tid)).1 = st := by
        simp [applyDynOp, startTask, hf]
      rw [hstate]
      exact statusForward_of_sub hinv.2 (fun t2 ht2 => ht2)
    | some task =>
      by_cases h1 : (task.status == TaskStatus.completed) = true
      · have hstate : (applyDynOp st (.start tid)).1 = st := by
          simp [applyDynOp, startTask, hf, h1]
        rw [hstate]
        exact statusForward_of_sub hinv.2 (fun t2 ht2 => ht2)
      · by_cases h2 : (task.status == TaskStatus.inProgress) = true
        · have hstate : (applyDynOp st (.start tid)).1 = st := by
            simp [applyDynOp, startTask, hf, h1, h2]
          rw [hstate]
          exact statusForward_of_sub hinv.2 (fun t2 ht2 => ht2)
        · have hstate : (applyDynOp st (.start tid)).1 =
              { st with tasks := st.tasks.map fun t =>
                  if t.id == tid then { t with status := TaskStatus.inProgress }
                  else t } := by
            simp [applyDynOp, startTask, hf, h1, h2]
          rw [hstate]
          refine statusForward_of_map hinv.2 ?_ ?_
          · intro u
            dsimp only
            split <;> rfl
          · intro u hu
            dsimp only
            split
            · rename_i hmatch
              have hu_eq := found_task_eq hinv.2 hf hu hmatch
              have hpend : u.status = TaskStatus.pending := by
                rw [hu_eq]
                cases hstat : task.status with
                | pending => rfl
                | inProgress => rw [hstat] at h2; exact absurd rfl h2
                | completed => rw [hstat] at h1; exact absurd rfl h1
              rw [hpend]
              exact Nat.zero_le _
            · exact le_refl _
  | complete tid r now =>
    cases hf : findTask st tid with
    | none =>
      have hstate : (applyDynOp st (.complete tid r now)).1 = st := by
        simp [applyDynOp, completeTask, hf]
      rw [hstate]
      exact statusForward_of_sub hinv.2 (fun t2 ht2 => ht2)
    | some task =>
      by_cases h1 : (task.status == TaskStatus.completed) = true
      · have hstate : (applyDynOp st (.complete tid r now)).1 = st := by
          simp [applyDynOp, completeTask, hf, h1]
        rw [hstate]
        exact statusForward_of_sub hinv.2 (fun t2 ht2 => ht2)
      · have hstate : (applyDynOp st (.complete tid r now)).1 =
            { st with tasks := st.tasks.map fun t =>
                if t.id == tid then
                  { t with status := TaskStatus.completed, result := some r
                           completedAt := some now }
                else t } := by
          simp only [applyDynOp, completeTask, hf, h1, Bool.false_eq_true,
            if_false]
          split <;> rfl
        rw [hstate]
        refine statusForward_of_map hinv.2 ?_ ?_
        · intro u
          dsimp only
          split <;> rfl
        · intro u _
          dsimp only
          split
          · cases u.status <;> simp [statusRank]
          · exact le_refl _
  | delete tid =>
    cases hf : findTask st tid with
    | none =>
      have hstate : (applyDynOp st (.delete tid)).1 = st := by
        simp [applyDynOp, deleteTask, hf]
      rw [hstate]
      exact statusForward_of_sub hinv.2 (fun t2 ht2 => ht2)
    | some task =>
      by_cases h1 : (task.status == TaskStatus.completed) = true
      · have hstate : (applyDynOp st (.delete tid)).1 = st := by
          simp [applyDynOp, deleteTask, hf, h1]
        rw [hstate]
        exact statusForward_of_sub hinv.2 (fun t2 ht2 => ht2)
      · by_cases h2 : (task.status == TaskStatus.inProgress) = true
        · have hstate : (applyDynOp st (.delete tid)).1 = st := by
            simp [applyDynOp, deleteTask, hf, h1, h2]
          rw [hstate]
          exact statusForward_of_sub hinv.2 (fun t2 ht2 => ht2)
        · have hstate : (applyDynOp st (.delete tid)).1 =
              { st with tasks := st.tasks.filter fun t => !(t.id == tid) } := by
            simp [applyDynOp, deleteTask, hf, h1, h2]
          rw [hstate]
          exact statusForward_of_sub hinv.2
            (fun t2 ht2 => (List.mem_filter.mp ht2).1)

/-- Pointwise id-preserving updates preserve the invariant. -/
lemma dynInvariant_map {st : DynamicTaskListState} (hinv : dynInvariant st)
    (f : DynamicTask → DynamicTask) (hid : ∀ u, (f u).id = u.id) :
    dynInvariant { st with tasks := st.tasks.map f } := by
  constructor
  · intro t ht
    obtain ⟨u, hu, hfu⟩ := List.mem_map.mp ht
    obtain ⟨k, hk, hklt⟩ := hinv.1 u hu
    exact ⟨k, by rw [← hfu, hid u, hk], hklt⟩
  · show ((st.tasks.map f).map DynamicTask.id).Nodup
    have hids : (st.tasks.map f).map DynamicTask.id =
        st.tasks.map DynamicTask.id := by
      rw [List.map_map]
      exact List.map_congr_left (fun u _ => hid u)
    rw [hids]
    exact hinv.2

/-- Removing tasks preserves the invariant. -/
lemma dynInvariant_filter {st : DynamicTaskListState} (hinv : dynInvariant st)
    (p : DynamicTask → Bool) :
    dynInvariant { st with tasks := st.tasks.filter p } := by
  constructor
  · intro t ht
    exact hinv.1 t (List.mem_filter.mp ht).1
  · show ((st.tasks.filter p).map DynamicTask.id).Nodup
    exact List.Nodup.sublist
      (List.Sublist.map DynamicTask.id (List.filter_sublist st.tasks)) hinv.2

/-- `createTask` preserves the invariant: the fresh id is rendered from the
current counter, which exceeds the counter value of every existing id. -/
lemma dynInvariant_create {st : DynamicTaskListState} (hinv : dynInvariant st)
    (d : String) (now : Nat) : dynInvariant (createTask st d now).1 := by
  constructor
  · intro t ht
    simp only [createTask] at ht
    rcases List.mem_append.mp ht with h | h
    · obtain ⟨k, hk, hklt⟩ := hinv.1 t h
      refine ⟨k, hk, ?_⟩
      show k < st.nextId + 1
      omega
    · have ht' := List.mem_singleton.mp h
      refine ⟨st.nextId, by rw [ht'], ?_⟩
      show st.nextId < st.nextId + 1
      omega
  · show ((st.tasks ++
      [({ id := taskIdString st.nextId, description := d
          status := TaskStatus.pending, result := none, createdAt := now
          completedAt := none } : DynamicTask)]).map DynamicTask.id).Nodup
    rw [List.map_append]
    rw [List.nodup_append]
    refine ⟨hinv.2, by simp, ?_⟩
    intro a ha hb
    obtain ⟨u, hu, hua⟩ := List.mem_map.mp ha
    simp only [List.map_cons, List.map_nil, List.mem_singleton] at hb
    obtain ⟨k, hk, hklt⟩ := hinv.1 u hu
    rw [← hua, hk] at hb
    exact absurd (taskIdString_injective hb) (by omega)

/-- The id counter never decreases across a tool call. -/
lemma applyDynOp_nextId_le (st : DynamicTaskListState) (op : DynOp) :
    st.nextId ≤ (applyDynOp st op).1.nextId := by
  cases op with
  | list => exact le_refl _
  | create d now =>
    show st.nextId ≤ st.nextId + 1
    omega
  | update tid nd =>
    cases hf : findTask st tid with
    | none => simp [applyDynOp, updateTask, hf]
    | some task =>
      by_cases h1 : (task.status == TaskStatus.completed) = true
      · simp [applyDynOp, updateTask, hf, h1]
      · by_cases h2 : (task.status == TaskStatus.inProgress) = true
        · simp [applyDynOp, updateTask, hf, h1, h2]
        · simp [applyDynOp, updateTask, hf, h1, h2]
  | start tid =>
    cases hf : findTask st tid with
    | none => simp [applyDynOp, startTask, hf]
    | some task =>
      by_cases h1 : (task.status == TaskStatus.completed) = true
      · simp [applyDynOp, startTask, hf, h1]
      · by_cases h2 : (task.status == TaskStatus.inProgress) = true
        · simp [applyDynOp, startTask, hf, h1, h2]
        · simp [applyDynOp, startTask, hf, h1, h2]
  | complete tid r now =>
    cases hf : findTask st tid with
    | none => simp [applyDynOp, completeTask, hf]
    | some task =>
      by_cases h1 : (task.status == TaskStatus.completed) = true
      · simp [applyDynOp, completeTask, hf, h1]
      · simp only [applyDynOp, completeTask, hf, h1, Bool.false_eq_true,
          if_false]
        split <;> exact le_refl _
  | delete tid =>
    cases hf : findTask st tid with
    | none => simp [applyDynOp, deleteTask, hf]
    | some task =>
      by_cases h1 : (task.status == TaskStatus.completed) = true
      · simp [applyDynOp, deleteTask, hf, h1]
      · by_cases h2 : (task.status == TaskStatus.inProgress) = true
        · simp [applyDynOp, deleteTask, hf, h1, h2]
        · simp [applyDynOp, deleteTask, hf, h1, h2]

/-- Every tool call preserves the invariant. -/
lemma applyDynOp_invariant (st : DynamicTaskListState) (op : DynOp)
    (hinv : dynInvariant st) : dynInvariant (applyDynOp st op).1 := by
  cases op with
  | list => exact hinv
  | create d now => exact dynInvariant_create hinv d now
  | update tid nd =>
    cases hf : findTask st tid with
    | none =>
      have hstate : (applyDynOp st (.update tid nd)).1 = st := by
        simp [applyDynOp, updateTask, hf]
      rw [hstate]; exact hinv
    | some task =>
      by_cases h1 : (task.status == TaskStatus.completed) = true
      · have hstate : (applyDynOp st (.update tid nd)).1 = st := by
          simp [applyDynOp, updateTask, hf, h1]
        rw [hstate]; exact hinv
      · by_cases h2 : (task.status == TaskStatus.inProgress) = true
        · have hstate : (applyDynOp st (.update tid nd)).1 = st := by
            simp [applyDynOp, updateTask, hf, h1, h2]
          rw [hstate]; exact hinv
        · have hstate : (applyDynOp st (.update tid nd)).1 =
              { st with tasks := st.tasks.map fun t =>
                  if t.id == tid then { t with description := nd } else t } := by
            simp [applyDynOp, updateTask, hf, h1, h2]
          rw [hstate]
          exact dynInvariant_map hinv _ (by intro u; split <;> rfl)
  | start tid =>
    cases hf : findTask st tid with
    | none =>
      have hstate : (applyDynOp st (.start tid)).1 = st := by
        simp [applyDynOp, startTask, hf]
      rw [hstate]; exact hinv
    | some task =>
      by_cases h1 : (task.status == TaskStatus.completed) = true
      · have hstate : (applyDynOp st (.start tid)).1 = st := by
          simp [applyDynOp, startTask, hf, h1]
        rw [hstate]; exact hinv
      · by_cases h2 : (task.status == TaskStatus.inProgress) = true
        · have hstate : (applyDynOp st (.start tid)).1 = st := by
            simp [applyDynOp, startTask, hf, h1, h2]
          rw [hstate]; exact hinv
        · have hstate : (applyDynOp st (.start tid)).1 =
              { st with tasks := st.tasks.map fun t =>
                  if t.id == tid then { t with status := TaskStatus.inProgress }
                  else t } := by
            simp [applyDynOp, startTask, hf, h1, h2]
          rw [hstate]
          exact dynInvariant_map hinv _ (by intro u; split <;> rfl)
  | complete tid r now =>
    cases hf : findTask st tid with
    | none =>
      have hstate : (applyDynOp st (.complete tid r now)).1 = st := by
        simp [applyDynOp, completeTask, hf]
      rw [hstate]; exact hinv
    | some task =>
      by_cases h1 : (task.status == TaskStatus.completed) = true
      · have hstate : (applyDynOp st (.complete tid r now)).1 = st := by
          simp [applyDynOp, completeTask, hf, h1]
        rw [hstate]; exact hinv
      · have hstate : (applyDynOp st (.complete tid r now)).1 =
            { st with tasks := st.tasks.map fun t =>
                if t.id == tid then
                  { t with status := TaskStatus.completed, result := some r
                           completedAt := some now }
                else t } := by
          simp only [applyDynOp, completeTask, hf, h1, Bool.false_eq_true,
            if_false]
          split <;> rfl
        rw [hstate]
        exact dynInvariant_map hinv _ (by intro u; split <;> rfl)
  | delete tid =>
    cases hf : findTask st tid with
    | none =>
      have hstate : (applyDynOp st (.delete tid)).1 = st := by
        simp [applyDynOp, deleteTask, hf]
      rw [hstate]; exact hinv
    | some task =>
      by_cases h1 : (task.status == TaskStatus.completed) = true
      · have hstate : (applyDynOp st (.delete tid)).1 = st := by
          simp [applyDynOp, deleteTask, hf, h1]
        rw [hstate]; exact hinv
      · by_cases h2 : (task.status == TaskStatus.inProgress) = true
        · have hstate : (applyDynOp st (.delete tid)).1 = st := by
            simp [applyDynOp, deleteTask, hf, h1, h2]
          rw [hstate]; exact hinv
        · have hstate : (applyDynOp st (.delete tid)).1 =
              { st with tasks := st.tasks.filter fun t => !(t.id == tid) } := by
            simp [applyDynOp, deleteTask, hf, h1, h2]
          rw [hstate]
          exact dynInvariant_filter hinv _

/-- The state trace always starts with the initial state. -/
lemma dynTrace_head (st : DynamicTaskListState) (ops : List DynOp) :
    (dynTrace st ops).head? = some st := by
  cases ops <;> rfl

/-- Along a trace from an invariant state, statuses only move forward. -/
lemma dynTrace_chain (ops : List DynOp) : ∀ st, dynInvariant st →
    List.Chain' statusForward (dynTrace st ops) := by
  induction ops with
  | nil => intro st _; simp [dynTrace]
  | cons op ops ih =>
    intro st hinv
    rw [dynTrace]
    refine List.chain'_cons'.mpr ⟨?_, ih _ (applyDynOp_invariant st op hinv)⟩
    intro b hb
    rw [dynTrace_head] at hb
    cases hb
    exact applyDynOp_statusForward st op hinv

/-- The counter values allocated by `createTask` are strictly increasing and
bounded below by the current counter. -/
lemma createdIdNums_chain (ops : List DynOp) : ∀ st,
    List.Chain' (fun a b => a < b) (createdIdNums st ops) ∧
    ∀ n ∈ createdIdNums st ops, st.nextId ≤ n := by
  induction ops with
  | nil =>
    intro st
    exact ⟨List.chain'_nil, by intro n hn; simp [createdIdNums] at hn⟩
  | cons op ops ih =>
    intro st
    cases op with
    | create d now =>
      have hrec := ih (applyDynOp st (.create d now)).1
      have hnext : (applyDynOp st (.create d now)).1.nextId = st.nextId + 1 :=
        rfl
      constructor
      · refine List.chain'_cons'.mpr ⟨?_, hrec.1⟩
        intro b hb
        have hble := hrec.2 b (List.mem_of_mem_head? hb)
        rw [hnext] at hble
        omega
      · intro n hn
        rcases List.mem_cons.mp hn with h | h
        · exact le_of_eq h.symm
        · have hble := hrec.2 n h
          rw [hnext] at hble
          omega
    | update tid nd =>
      have hrec := ih (applyDynOp st (.update tid nd)).1
      have hle := applyDynOp_nextId_le st (.update tid nd)
      exact ⟨hrec.1, fun n hn => le_trans hle (hrec.2 n hn)⟩
    | start tid =>
      have hrec := ih (applyDynOp st (.start tid)).1
      have hle := applyDynOp_nextId_le st (.start tid)
      exact ⟨hrec.1, fun n hn => le_trans hle (hrec.2 n hn)⟩
    | complete tid r now =>
      have hrec := ih (applyDynOp st (.complete tid r now)).1
      have hle := applyDynOp_nextId_le st (.complete tid r now)
      exact ⟨hrec.1, fun n hn => le_trans hle (hrec.2 n hn)⟩
    | delete tid =>
      have hrec := ih (applyDynOp st (.delete tid)).1
      have hle := applyDynOp_nextId_le st (.delete tid)
      exact ⟨hrec.1, fun n hn => le_trans hle (hrec.2 n hn)⟩
    | list =>
      have hrec := ih (applyDynOp st DynOp.list).1
      have hle := applyDynOp_nextId_le st DynOp.list
      exact ⟨hrec.1, fun n hn => le_trans hle (hrec.2 n hn)⟩

/-- C4: along every sequence of dynamic-task tool calls from the initial
state, every task's status only moves forward along `pending → in_progress →
completed` (no transition back), and the counter values allocated to created
tasks are strictly increasing — an id, once allocated, is never assigned to a
later-created task, even after the original task is deleted. -/
theorem dynTaskList_forward_and_id_nonreuse (ops : List DynOp) :
    List.Chain' statusForward (dynTrace initDynState ops) ∧
    List.Chain' (fun a b => a < b) (createdIdNums initDynState ops) ∧
    (createdIdNums initDynState ops).Nodup := by
  have hinv0 : dynInvariant initDynState := by
    constructor
    · intro t ht
      simp [initDynState] at ht
    · simp [initDynState]
  have hchain := (createdIdNums_chain ops initDynState).1
  refine ⟨dynTrace_chain ops initDynState hinv0, hchain, ?_⟩
  have hpw := List.chain'_iff_pairwise.mp hchain
  exact List.Pairwise.imp (fun h => Nat.ne_of_lt h) hpw

end Genagent

